import Mathlib

/-!
# A shallow embedding of fastjsonschema's summary writer

This file embeds `fastjsonschema/summary.py` — the `SummaryWriter` class and
its `separate_terms` helper — as executable Lean definitions over a mutual
inductive model of decoded JSON documents, and proves properties of the
embedding.

Modelling notes:
* Python exceptions are modelled with `Except PyError`: `schema.items()` on a
  non-mapping raises `AttributeError`, and `dict.get` applied to an
  unhashable (list or dict) value raises `TypeError`.
* `repr` is modelled for ASCII text (quote choice and character escapes as
  CPython renders printable ASCII); numbers are modelled as integers.
* The regex `\W+|([A-Z][^A-Z\W]*)` used by `separate_terms`, and
  `str.lower`, are modelled for ASCII input.
* The recursion of `__call__` is made structural by fusing
  `_filter_unecessary` into the entry loop (`entriesGo`) and inlining the
  bodies of the recursive call on mapping values and of `_handle_list` at
  their call sites; `filter_idem`, `entriesGo_filter` and the standalone
  `SummaryWriter.handle_list` tie these back to the source shape.
-/

namespace Summary

/-- Python exceptions that the summary writer can actually raise. -/
inductive PyError where
  | attributeError
  | typeError
  deriving DecidableEq

mutual

/-- A decoded JSON-like document: mappings, sequences and scalars. -/
inductive JSON where
  | str (s : String)
  | num (n : Int)
  | bool (b : Bool)
  | null
  | arr (xs : JList)
  | obj (kvs : JEntries)

/-- A sequence of JSON nodes. -/
inductive JList where
  | nil
  | cons (hd : JSON) (tl : JList)

/-- An insertion-ordered mapping from string keys to JSON nodes. -/
inductive JEntries where
  | nil
  | cons (key : String) (val : JSON) (tl : JEntries)

end

def JList.toList : JList → List JSON
  | .nil => []
  | .cons h t => h :: JList.toList t

def JEntries.toList : JEntries → List (String × JSON)
  | .nil => []
  | .cons k v t => (k, v) :: JEntries.toList t

def JList.all (p : JSON → Bool) : JList → Bool
  | .nil => true
  | .cons h t => p h && JList.all p t

def JEntries.hasKey (k : String) : JEntries → Bool
  | .nil => false
  | .cons k' _ t => k' == k || JEntries.hasKey k t

def JEntries.anyVal (p : JSON → Bool) : JEntries → Bool
  | .nil => false
  | .cons _ v t => p v || JEntries.anyVal p t

/-- isinstance(value, (list, dict)) -/
def JSON.isContainer : JSON → Bool
  | .arr _ => true
  | .obj _ => true
  | _ => false

/-- Lower-case hexadecimal digit, as used by Python string escapes. -/
def hexDigitChar : Nat → Char
  | 0 => '0' | 1 => '1' | 2 => '2' | 3 => '3' | 4 => '4'
  | 5 => '5' | 6 => '6' | 7 => '7' | 8 => '8' | 9 => '9'
  | 10 => 'a' | 11 => 'b' | 12 => 'c' | 13 => 'd' | 14 => 'e'
  | _ => 'f'

def decDigitChar : Nat → Char
  | 0 => '0' | 1 => '1' | 2 => '2' | 3 => '3' | 4 => '4'
  | 5 => '5' | 6 => '6' | 7 => '7' | 8 => '8'
  | _ => '9'

/-- Decimal digits of a natural number (fuel-driven so that it reduces). -/
def natCharsAux : Nat → Nat → List Char
  | 0, _ => []
  | fuel + 1, n =>
    if n < 10 then [decDigitChar n]
    else natCharsAux fuel (n / 10) ++ [decDigitChar (n % 10)]

def natChars (n : Nat) : List Char := natCharsAux (n + 1) n

/-- str(i) for a Python int. -/
def natRepr (n : Nat) : String := String.mk (natChars n)

/-- repr(i) for a Python int (decimal, with a leading minus sign if negative). -/
def intRepr : Int → String
  | .ofNat n => String.mk (natChars n)
  | .negSucc n => String.mk ('-' :: natChars (n + 1))

/-- One character of a Python string repr, escaped as CPython does for
ASCII text, given the chosen surrounding quote character. -/
def escChar (q c : Char) : List Char :=
  if c = '\\' then ['\\', '\\']
  else if c = q then ['\\', q]
  else if c = '\n' then ['\\', 'n']
  else if c = '\r' then ['\\', 'r']
  else if c = '\t' then ['\\', 't']
  else if c.toNat < 32 ∨ c.toNat = 127 then
    ['\\', 'x', hexDigitChar (c.toNat / 16 % 16), hexDigitChar (c.toNat % 16)]
  else [c]

/-- repr(s) for a Python str: single-quoted, unless the text holds a single
quote and no double quote, in which case double-quoted; special characters
escaped as CPython renders ASCII text. -/
def pyReprString (s : String) : String :=
  let q : Char := if '\'' ∈ s.data ∧ '"' ∉ s.data then '"' else '\''
  String.mk (q :: (s.data.map (escChar q)).flatten ++ [q])

def joinSep (sep : String) : List String → String
  | [] => ""
  | [x] => x
  | x :: y :: xs => x ++ sep ++ joinSep sep (y :: xs)

mutual

/-- repr(value) for a decoded JSON tree, as CPython prints it. -/
def pyRepr : JSON → String
  | .str s => pyReprString s
  | .num n => intRepr n
  | .bool b => if b then "True" else "False"
  | .null => "None"
  | .arr xs => "[" ++ joinSep ", " (pyReprItems xs) ++ "]"
  | .obj kvs => "\x7b" ++ joinSep ", " (pyReprPairs kvs) ++ "\x7d"

def pyReprItems : JList → List String
  | .nil => []
  | .cons v vs => pyRepr v :: pyReprItems vs

def pyReprPairs : JEntries → List String
  | .nil => []
  | .cons k v rest => (pyReprString k ++ ": " ++ pyRepr v) :: pyReprPairs rest

end

/-- The summary writer's configuration: the optional dialect jargon table
supplied at construction (SummaryWriter.__init__). -/
structure SummaryWriter where
  jargon : List (String × String)

/-- self._jargon(term) = self.jargon.get(term, term) -/
def SummaryWriter.jargonGet (sw : SummaryWriter) (term : String) : String :=
  (List.lookup term sw.jargon).getD term

/-- self._terms, built in __init__ from the jargon table. -/
def SummaryWriter.terms (sw : SummaryWriter) : List (String × String) :=
  [("anyOf", "at least one of the following"),
   ("oneOf", "exactly one of the following"),
   ("allOf", "all of the following"),
   ("not", "(*NOT* the following)"),
   ("prefixItems", sw.jargonGet "items" ++ " (in order)"),
   ("items", "items"),
   ("contains", "contains at least one of"),
   ("propertyNames", "non-predefined acceptable " ++ sw.jargonGet "property names"),
   ("patternProperties", sw.jargonGet "properties" ++ " named via pattern"),
   ("const", "predefined value")]

/-- self._guess_inline_defs, built in __init__ (jargon-independent). -/
def guessInlineDefs : List String :=
  ["enum", "const", "maxLength", "minLength", "pattern", "format",
   "minimum", "maximum", "exclusiveMinimum", "exclusiveMaximum", "multipleOf"]

/-- SummaryWriter._IGNORE -/
def IGNORE_KEYS : List String := ["description", "default", "title", "examples"]

/-- The filtering predicate of _filter_unecessary:
any(key.startswith(k) for k in "$_") or key in self._IGNORE. -/
def badKey (k : String) : Bool :=
  (k.data.head? == some '$') || (k.data.head? == some '_') || IGNORE_KEYS.contains k

/-- SummaryWriter._filter_unecessary -/
def filter_unecessary : JEntries → JEntries
  | .nil => .nil
  | .cons k v t => if badKey k then filter_unecessary t else .cons k v (filter_unecessary t)

/-- True for word characters in the sense of the regex \w (ASCII model). -/
def isWordChar (c : Char) : Bool := c.isAlphanum || c == '_'

/-- Continuation characters of a token of _CAMEL_CASE_SPLITTER:
word characters that are not upper-case letters ([^A-Z\W]). -/
def tokCont (c : Char) : Bool := isWordChar c && !c.isUpper

/-- Tokenisation performed by re.split(_CAMEL_CASE_SPLITTER, word) followed by
dropping falsy pieces (ASCII model of the regex \W+|([A-Z][^A-Z\W]*)):
non-word characters separate tokens and are dropped; a token is a word
character followed by the non-upper-case word characters after it.
Fuel-driven so that it reduces; each step consumes at least one character. -/
def sepTokensF : Nat → List Char → List (List Char)
  | 0, _ => []
  | _, [] => []
  | fuel + 1, c :: cs =>
    if isWordChar c then
      (c :: cs.takeWhile tokCont) :: sepTokensF fuel (cs.dropWhile tokCont)
    else
      sepTokensF fuel cs

/-- separate_terms(word): split on camelCase boundaries and punctuation and
lower-case every token (w.lower() applied character-wise; ASCII model). -/
def separate_terms (word : String) : List String :=
  (sepTokensF (word.data.length + 1) word.data).map
    (fun t => String.mk (t.map Char.toLower))

/-- The consecutive-trailing-segment counter of SummaryWriter._is_property,
applied to the reversed path with its last segment dropped. -/
def trailingProps : List String → Nat
  | [] => 0
  | k :: rest =>
    if k == "properties" || k == "patternProperties" then trailingProps rest + 1
    else 0

/-- SummaryWriter._is_property -/
def is_property (path : List String) : Bool :=
  if path.isEmpty then false
  else trailingProps path.dropLast.reverse % 2 == 1

/-- SummaryWriter._label.  The source unpacks `*parents, key = path`; it is
only ever invoked with a non-empty path, so the defaulted last element is
never the inserted default. -/
def SummaryWriter.label (sw : SummaryWriter) (path : List String) : String :=
  let key := path.getLastD ""
  if is_property path = false then
    match List.lookup key sw.terms with
    | some t =>
      if t = "" then joinSep " " ((separate_terms key).map sw.jargonGet) else t
    | none => joinSep " " ((separate_terms key).map sw.jargonGet)
  else if path.dropLast.getLastD "" = "patternProperties" then
    "(regex " ++ pyReprString key ++ ")"
  else
    pyReprString key

/-- SummaryWriter._value.  `self._jargon(value)` hashes the value: a list or
dict value reaching that branch raises TypeError (unhashable type); the
other scalars are hashable, miss the string-keyed table and come back
unchanged, after which the f-string renders them with str(). -/
def SummaryWriter.value (sw : SummaryWriter) (v : JSON) (path : List String) :
    Except PyError String :=
  if is_property path = false ∧ path.getLastD "" = "type" then
    match v with
    | .str s => .ok (sw.jargonGet s)
    | .num n => .ok (intRepr n)
    | .bool b => .ok (if b then "True" else "False")
    | .null => .ok "None"
    | .arr _ => .error .typeError
    | .obj _ => .error .typeError
  else
    .ok (pyRepr v)

/-- SummaryWriter._inline_attrs -/
def SummaryWriter.inline_attrs (sw : SummaryWriter) :
    JEntries → List String → Except PyError (List String)
  | .nil, _ => .ok []
  | .cons k v tl, path =>
    let cp := path ++ [k]
    match sw.value v cp with
    | .error e => .error e
    | .ok s =>
      match sw.inline_attrs tl path with
      | .error e => .error e
      | .ok rest => .ok ((sw.label cp ++ ": " ++ s) :: rest)

/-- SummaryWriter._handle_simple_dict -/
def SummaryWriter.handle_simple_dict (sw : SummaryWriter) (v : JEntries)
    (path : List String) : Except PyError (Option String) :=
  let inline := guessInlineDefs.any (fun p => JEntries.hasKey p v)
  let simple := !JEntries.anyVal JSON.isContainer v
  if inline || simple then
    match sw.inline_attrs v path with
    | .error e => .error e
    | .ok attrs => .ok (some ("\x7b" ++ joinSep ", " attrs ++ "\x7d\n"))
  else
    .ok none

/-- n * " " -/
def spaces (n : Nat) : String := String.mk (List.replicate n ' ')

/-- SummaryWriter._child_prefix: len(parent) * " " + child. -/
def child_pfx (parent child : String) : String := spaces parent.length ++ child

/-- The buffer layout of __call__'s block branch: the first written entry
receives the caller's prefix verbatim, every later entry the all-space
indent of the same length. -/
def joinBlockTail (ind : String) : List String → String
  | [] => ""
  | p :: ps => ind ++ p ++ joinBlockTail ind ps

def joinBlock (pfx ind : String) : List String → String
  | [] => ""
  | p :: ps => pfx ++ p ++ joinBlockTail ind ps

mutual

/-- SummaryWriter.__call__.  Lists go to the _handle_list logic, mappings
are filtered and either rendered inline (_handle_simple_dict) or as a
block; any other node (a scalar) hits `schema.items()` and raises
AttributeError. -/
def SummaryWriter.call (sw : SummaryWriter) :
    JSON → String → List String → Except PyError String
  | .obj kvs, pfx, path =>
    match sw.handle_simple_dict (filter_unecessary kvs) path with
    | .error e => .error e
    | .ok (some s) => .ok (pfx ++ s)
    | .ok none =>
      match sw.entriesGo kvs (child_pfx pfx "  ") (child_pfx pfx "- ") path with
      | .error e => .error e
      | .ok parts => .ok (joinBlock pfx (spaces pfx.length) parts)
  | .arr xs, pfx, path =>
    -- _handle_list: inline when every element is a scalar and the repr is
    -- short, otherwise one rendering per element with a "- " item prefix.
    if JList.all (fun e => !e.isContainer) xs = true ∧ (pyRepr (.arr xs)).length < 60 then
      .ok (pyRepr (.arr xs) ++ "\n")
    else
      match sw.itemsGo xs (child_pfx pfx "- ") path 0 with
      | .error e => .error e
      | .ok parts => .ok (String.join parts)
  | .str _, _, _ => .error .attributeError
  | .num _, _, _ => .error .attributeError
  | .bool _, _, _ => .error .attributeError
  | .null, _, _ => .error .attributeError

/-- The per-element loop of _handle_list's block branch: each element is
rendered by a recursive __call__ with the item prefix and an index path
segment, and the results are concatenated by the caller. -/
def SummaryWriter.itemsGo (sw : SummaryWriter) :
    JList → String → List String → Nat → Except PyError (List String)
  | .nil, _, _, _ => .ok []
  | .cons v vs, ipfx, path, i =>
    match sw.call v ipfx (path ++ ["[" ++ natRepr i ++ "]"]) with
    | .error e => .error e
    | .ok s =>
      match sw.itemsGo vs ipfx path (i + 1) with
      | .error e => .error e
      | .ok rest => .ok (s :: rest)

/-- The entry loop of __call__'s block branch.  The source iterates the
filtered mapping; here the filter is fused into the loop (entries with a
bad key are skipped), which renders the same entries in the same order.
The nested-mapping and list cases inline the bodies of the recursive
__call__ (whose simple-dict probe is already known to be `none`) and of
_handle_list, so that the recursion is structural; the lemmas
entry_dict_eq_call and entry_list_eq below re-tie them to the originals. -/
def SummaryWriter.entriesGo (sw : SummaryWriter) :
    JEntries → String → String → List String → Except PyError (List String)
  | .nil, _, _, _ => .ok []
  | .cons k v tl, cpfx, ipfx, path =>
    if badKey k then sw.entriesGo tl cpfx ipfx path
    else
      let cp := path ++ [k]
      let lab := sw.label cp ++ ":"
      match v with
      | .obj kvs2 =>
        match sw.handle_simple_dict (filter_unecessary kvs2) cp with
        | .error e => .error e
        | .ok (some s) =>
          match sw.entriesGo tl cpfx ipfx path with
          | .error e => .error e
          | .ok parts => .ok ((lab ++ " " ++ s) :: parts)
        | .ok none =>
          match sw.entriesGo kvs2 (child_pfx cpfx "  ") (child_pfx cpfx "- ") cp with
          | .error e => .error e
          | .ok parts2 =>
            match sw.entriesGo tl cpfx ipfx path with
            | .error e => .error e
            | .ok parts =>
              .ok ((lab ++ "\n" ++ joinBlock cpfx (spaces cpfx.length) parts2) :: parts)
      | .arr xs2 =>
        let children? : Except PyError String :=
          if JList.all (fun e => !e.isContainer) xs2 = true ∧ (pyRepr (.arr xs2)).length < 60 then
            .ok (pyRepr (.arr xs2) ++ "\n")
          else
            match sw.itemsGo xs2 (child_pfx ipfx "- ") cp 0 with
            | .error e => .error e
            | .ok parts2 => .ok (String.join parts2)
        match children? with
        | .error e => .error e
        | .ok children =>
          let sep := if children.data.head? = some '[' then " " else "\n"
          match sw.entriesGo tl cpfx ipfx path with
          | .error e => .error e
          | .ok parts => .ok ((lab ++ sep ++ children) :: parts)
      | .str s =>
        match sw.entriesGo tl cpfx ipfx path with
        | .error e => .error e
        | .ok parts => .ok ((lab ++ " " ++ pyReprString s ++ "\n") :: parts)
      | .num n =>
        match sw.entriesGo tl cpfx ipfx path with
        | .error e => .error e
        | .ok parts => .ok ((lab ++ " " ++ intRepr n ++ "\n") :: parts)
      | .bool b =>
        match sw.entriesGo tl cpfx ipfx path with
        | .error e => .error e
        | .ok parts => .ok ((lab ++ " " ++ (if b then "True" else "False") ++ "\n") :: parts)
      | .null =>
        match sw.entriesGo tl cpfx ipfx path with
        | .error e => .error e
        | .ok parts => .ok ((lab ++ " " ++ "None" ++ "\n") :: parts)

end

/-- SummaryWriter._handle_list as a standalone function (the same text as the
two inlined occurrences above). -/
def SummaryWriter.handle_list (sw : SummaryWriter) (xs : JList) (pfx : String)
    (path : List String) : Except PyError String :=
  if JList.all (fun e => !e.isContainer) xs = true ∧ (pyRepr (.arr xs)).length < 60 then
    .ok (pyRepr (.arr xs) ++ "\n")
  else
    match sw.itemsGo xs (child_pfx pfx "- ") path 0 with
    | .error e => .error e
    | .ok parts => .ok (String.join parts)

/-! ### Basic character-level facts -/

theorem toNat_ofNat_valid {n : Nat} (h : n.isValidChar) : (Char.ofNat n).toNat = n := by
  rw [Char.ofNat, dif_pos h]
  rfl

theorem toLower_ne_newline {c : Char} (h : isWordChar c = true) :
    Char.toLower c ≠ '\n' := by
  intro heq
  rw [Char.toLower] at heq
  split at heq
  · rename_i hr
    have hval : (c.toNat + 32).isValidChar := Or.inl (by omega)
    have h10 := congrArg Char.toNat heq
    rw [toNat_ofNat_valid hval] at h10
    have : ('\n').toNat = 10 := by decide
    omega
  · subst heq
    simp [isWordChar, Char.isAlphanum, Char.isAlpha, Char.isUpper, Char.isLower,
      Char.isDigit] at h

theorem hexDigitChar_ne_newline (n : Nat) : hexDigitChar n ≠ '\n' := by
  unfold hexDigitChar
  split <;> decide

theorem decDigitChar_ne_newline (n : Nat) : decDigitChar n ≠ '\n' := by
  unfold decDigitChar
  split <;> decide

theorem escChar_not_newline {q : Char} (hq : q ≠ '\n') (c : Char) :
    '\n' ∉ escChar q c := by
  intro hmem
  unfold escChar at hmem
  split at hmem
  · revert hmem; decide
  · split at hmem
    · simp only [List.mem_cons, List.not_mem_nil, or_false] at hmem
      rcases hmem with h | h
      · exact absurd h.symm (by decide)
      · exact hq h.symm
    · split at hmem
      · revert hmem; decide
      · split at hmem
        · revert hmem; decide
        · split at hmem
          · revert hmem; decide
          · split at hmem
            · simp only [List.mem_cons, List.not_mem_nil, or_false] at hmem
              rcases hmem with h | h | h | h
              · exact absurd h.symm (by decide)
              · exact absurd h.symm (by decide)
              · exact hexDigitChar_ne_newline _ h.symm
              · exact hexDigitChar_ne_newline _ h.symm
            · rename_i h1 h2 hnl h4 h5 h6
              simp only [List.mem_cons, List.not_mem_nil, or_false] at hmem
              exact hnl hmem.symm

theorem pyReprString_not_newline (s : String) : '\n' ∉ (pyReprString s).data := by
  unfold pyReprString
  intro hmem
  have hq : (if '\'' ∈ s.data ∧ '"' ∉ s.data then '"' else '\'') ≠ '\n' := by
    split <;> decide
  simp only [String.mk] at hmem
  rcases List.mem_cons.1 hmem with h | h
  · exact hq h.symm
  rcases List.mem_append.1 h with h | h
  · obtain ⟨l, hl, hc⟩ := List.mem_flatten.1 h
    obtain ⟨c, -, rfl⟩ := List.mem_map.1 hl
    exact escChar_not_newline hq c hc
  · simp only [List.mem_singleton] at h
    exact hq h.symm

theorem natCharsAux_not_newline (fuel n : Nat) : '\n' ∉ natCharsAux fuel n := by
  induction fuel generalizing n with
  | zero => simp [natCharsAux]
  | succ fuel ih =>
    unfold natCharsAux
    split
    · intro hmem
      simp only [List.mem_singleton] at hmem
      exact decDigitChar_ne_newline _ hmem.symm
    · intro hmem
      rcases List.mem_append.1 hmem with h | h
      · exact ih _ h
      · simp only [List.mem_singleton] at h
        exact decDigitChar_ne_newline _ h.symm

theorem intRepr_not_newline (n : Int) : '\n' ∉ (intRepr n).data := by
  cases n with
  | ofNat m => exact natCharsAux_not_newline _ _
  | negSucc m =>
    intro hmem
    rcases List.mem_cons.1 hmem with h | h
    · exact absurd h (by decide)
    · exact natCharsAux_not_newline _ _ h

theorem joinSep_not_newline {sep : String} (hsep : '\n' ∉ sep.data) :
    ∀ {ps : List String}, (∀ p ∈ ps, '\n' ∉ p.data) → '\n' ∉ (joinSep sep ps).data
  | [], _ => by simp [joinSep, String.data]
  | [x], h => by simpa [joinSep] using h x (List.mem_singleton.2 rfl)
  | x :: y :: xs, h => by
    intro hmem
    simp only [joinSep, String.data_append] at hmem
    rcases List.mem_append.1 hmem with h' | h'
    · rcases List.mem_append.1 h' with h'' | h''
      · exact h x (by simp) h''
      · exact hsep h''
    · exact joinSep_not_newline hsep (fun p hp => h p (List.mem_cons_of_mem _ hp)) h'

mutual

theorem pyRepr_not_newline : ∀ (v : JSON), '\n' ∉ (pyRepr v).data
  | .str s => pyReprString_not_newline s
  | .num n => intRepr_not_newline n
  | .bool b => by cases b <;> decide
  | .null => by decide
  | .arr xs => by
    intro hmem
    simp only [pyRepr, String.data_append] at hmem
    rcases List.mem_append.1 hmem with h | h
    · rcases List.mem_append.1 h with h' | h'
      · exact absurd h' (by decide)
      · exact joinSep_not_newline (by decide) (pyReprItems_not_newline xs) h'
    · exact absurd h (by decide)
  | .obj kvs => by
    intro hmem
    simp only [pyRepr, String.data_append] at hmem
    rcases List.mem_append.1 hmem with h | h
    · rcases List.mem_append.1 h with h' | h'
      · exact absurd h' (by decide)
      · exact joinSep_not_newline (by decide) (pyReprPairs_not_newline kvs) h'
    · exact absurd h (by decide)

theorem pyReprItems_not_newline :
    ∀ (xs : JList), ∀ p ∈ pyReprItems xs, '\n' ∉ p.data
  | .nil => by simp [pyReprItems]
  | .cons v vs => by
    intro p hp
    rcases List.mem_cons.1 hp with h | h
    · subst h; exact pyRepr_not_newline v
    · exact pyReprItems_not_newline vs p h

theorem pyReprPairs_not_newline :
    ∀ (kvs : JEntries), ∀ p ∈ pyReprPairs kvs, '\n' ∉ p.data
  | .nil => by simp [pyReprPairs]
  | .cons k v rest => by
    intro p hp
    rcases List.mem_cons.1 hp with h | h
    · subst h
      intro hmem
      simp only [String.data_append] at hmem
      rcases List.mem_append.1 hmem with h' | h'
      · rcases List.mem_append.1 h' with h'' | h''
        · exact pyReprString_not_newline k h''
        · exact absurd h'' (by decide)
      · exact pyRepr_not_newline v h'
    · exact pyReprPairs_not_newline rest p h

end

/-! ### Tokens, jargon and labels contain no newline -/

theorem sepTokensF_wordChars :
    ∀ (fuel : Nat) (l : List Char), ∀ t ∈ sepTokensF fuel l, ∀ c ∈ t, isWordChar c = true := by
  intro fuel
  induction fuel with
  | zero => simp [sepTokensF]
  | succ fuel ih =>
    intro l t ht c hc
    match l with
    | [] => simp [sepTokensF] at ht
    | ch :: cs =>
      rw [sepTokensF] at ht
      split at ht
      · rcases List.mem_cons.1 ht with h | h
        · subst h
          rcases List.mem_cons.1 hc with h' | h'
          · subst h'; assumption
          · have hw := List.mem_takeWhile_imp h'
            simp only [tokCont, Bool.and_eq_true] at hw
            exact hw.1
        · exact ih _ t h c hc
      · exact ih _ t ht c hc

theorem separate_terms_not_newline (w : String) :
    ∀ t ∈ separate_terms w, '\n' ∉ t.data := by
  intro t ht
  unfold separate_terms at ht
  obtain ⟨tok, htok, rfl⟩ := List.mem_map.1 ht
  intro hc
  replace hc : '\n' ∈ tok.map Char.toLower := hc
  obtain ⟨c, hcm, hceq⟩ := List.mem_map.1 hc
  exact toLower_ne_newline (sepTokensF_wordChars _ _ tok htok c hcm) hceq

theorem mem_of_lookup_eq_some {l : List (String × String)} {k v : String}
    (h : List.lookup k l = some v) : (k, v) ∈ l := by
  obtain ⟨l₁, l₂, rfl, -⟩ := List.lookup_eq_some_iff.1 h
  exact List.mem_append_right _ (List.mem_cons_self _ _)

theorem terms_val_cases (sw : SummaryWriter) {k t : String}
    (h : List.lookup k sw.terms = some t) :
    t = "at least one of the following" ∨ t = "exactly one of the following" ∨
    t = "all of the following" ∨ t = "(*NOT* the following)" ∨
    t = sw.jargonGet "items" ++ " (in order)" ∨ t = "items" ∨
    t = "contains at least one of" ∨
    t = "non-predefined acceptable " ++ sw.jargonGet "property names" ∨
    t = sw.jargonGet "properties" ++ " named via pattern" ∨ t = "predefined value" := by
  have hmem := mem_of_lookup_eq_some h
  simp only [SummaryWriter.terms, List.mem_cons, List.not_mem_nil, or_false,
    Prod.mk.injEq] at hmem
  tauto

theorem jargonGet_not_newline (sw : SummaryWriter)
    (hjar : ∀ p ∈ sw.jargon, '\n' ∉ p.2.data) (term : String)
    (hterm : '\n' ∉ term.data) : '\n' ∉ (sw.jargonGet term).data := by
  unfold SummaryWriter.jargonGet
  cases h : List.lookup term sw.jargon with
  | none => simpa using hterm
  | some v => simpa using hjar _ (mem_of_lookup_eq_some h)

theorem terms_lookup_ne_empty (sw : SummaryWriter) {k t : String}
    (h : List.lookup k sw.terms = some t) : t ≠ "" := by
  have hemp : String.length "" = 0 := rfl
  have hlenr : ∀ (a b : String), 0 < b.length → a ++ b ≠ "" := by
    intro a b hb he
    have := congrArg String.length he
    rw [String.length_append, hemp] at this
    omega
  have hlenl : ∀ (a b : String), 0 < a.length → a ++ b ≠ "" := by
    intro a b ha he
    have := congrArg String.length he
    rw [String.length_append, hemp] at this
    omega
  rcases terms_val_cases sw h with hc | hc | hc | hc | hc | hc | hc | hc | hc | hc <;>
    subst hc
  all_goals
    first
    | decide
    | exact hlenr _ _ (by decide)
    | exact hlenl _ _ (by decide)

theorem terms_lookup_not_newline (sw : SummaryWriter) {k t : String}
    (h : List.lookup k sw.terms = some t)
    (hjar : ∀ p ∈ sw.jargon, '\n' ∉ p.2.data) : '\n' ∉ t.data := by
  have hj : ∀ w : String, '\n' ∉ w.data → '\n' ∉ (sw.jargonGet w).data :=
    fun w hw => jargonGet_not_newline sw hjar w hw
  have happ : ∀ (a b : String), '\n' ∉ a.data → '\n' ∉ b.data → '\n' ∉ (a ++ b).data := by
    intro a b ha hb hm
    rw [String.data_append] at hm
    rcases List.mem_append.1 hm with h' | h'
    · exact ha h'
    · exact hb h'
  rcases terms_val_cases sw h with hc | hc | hc | hc | hc | hc | hc | hc | hc | hc <;>
    subst hc
  all_goals
    first
    | decide
    | exact happ _ _ (hj _ (by decide)) (by decide)
    | exact happ _ _ (by decide) (hj _ (by decide))

theorem label_not_newline (sw : SummaryWriter)
    (hjar : ∀ p ∈ sw.jargon, '\n' ∉ p.2.data) (path : List String) :
    '\n' ∉ (sw.label path).data := by
  have hfall : '\n' ∉
      (joinSep " " ((separate_terms (path.getLastD "")).map sw.jargonGet)).data := by
    refine joinSep_not_newline (by decide) ?_
    intro p hp
    obtain ⟨tok, htok, rfl⟩ := List.mem_map.1 hp
    exact jargonGet_not_newline sw hjar tok (separate_terms_not_newline _ tok htok)
  simp only [SummaryWriter.label]
  split
  · split
    · split
      · exact hfall
      · rename_i t ht _
        exact terms_lookup_not_newline sw ht hjar
    · exact hfall
  · split
    · intro hm
      rcases List.mem_append.1 hm with h' | h'
      · rcases List.mem_append.1 h' with h'' | h''
        · exact absurd h'' (by decide)
        · exact pyReprString_not_newline _ h''
      · exact absurd h' (by decide)
    · exact pyReprString_not_newline _

/-! ### Inline rendering of flat mappings -/

theorem anyVal_eq_false {p : JSON → Bool} :
    ∀ (kvs : JEntries), (∀ kv ∈ kvs.toList, p kv.2 = false) →
      JEntries.anyVal p kvs = false
  | .nil, _ => rfl
  | .cons k v tl, h => by
    simp only [JEntries.anyVal, Bool.or_eq_false_iff]
    refine ⟨h (k, v) (by simp [JEntries.toList]), ?_⟩
    exact anyVal_eq_false tl (fun kv hkv => h kv (by simp [JEntries.toList, hkv]))

theorem inline_attrs_ok_nf (sw : SummaryWriter)
    (hjar : ∀ p ∈ sw.jargon, '\n' ∉ p.2.data) :
    ∀ (kvs : JEntries) (path : List String),
      (∀ kv ∈ kvs.toList, kv.2.isContainer = false) →
      (∀ s, ("type", JSON.str s) ∈ kvs.toList → '\n' ∉ s.data) →
      ∃ attrs, sw.inline_attrs kvs path = .ok attrs ∧ ∀ a ∈ attrs, '\n' ∉ a.data
  | .nil, path, _, _ => ⟨[], rfl, by simp⟩
  | .cons k v tl, path, hscal, htype => by
    have hv : v.isContainer = false := hscal (k, v) (by simp [JEntries.toList])
    have hval : ∃ s, sw.value v (path ++ [k]) = .ok s ∧ '\n' ∉ s.data := by
      unfold SummaryWriter.value
      split
      · rename_i hcond
        have hk : k = "type" := by
          have h2 := hcond.2
          rwa [List.getLastD_concat] at h2
        cases v with
        | str s =>
          refine ⟨sw.jargonGet s, rfl, ?_⟩
          refine jargonGet_not_newline sw hjar s ?_
          subst hk
          exact htype s (by simp [JEntries.toList])
        | num n => exact ⟨_, rfl, intRepr_not_newline n⟩
        | bool b => cases b
                    · exact ⟨_, rfl, by decide⟩
                    · exact ⟨_, rfl, by decide⟩
        | null => exact ⟨_, rfl, by decide⟩
        | arr xs => simp [JSON.isContainer] at hv
        | obj kvs2 => simp [JSON.isContainer] at hv
      · exact ⟨_, rfl, pyRepr_not_newline v⟩
    obtain ⟨s, hs, hsnf⟩ := hval
    obtain ⟨attrs, hat, hatnf⟩ := inline_attrs_ok_nf sw hjar tl path
      (fun kv hkv => hscal kv (by simp [JEntries.toList, hkv]))
      (fun s' hs' => htype s' (by simp [JEntries.toList, hs']))
    refine ⟨(sw.label (path ++ [k]) ++ ": " ++ s) :: attrs, ?_, ?_⟩
    · rw [SummaryWriter.inline_attrs, hs, hat]
    · intro a ha
      rcases List.mem_cons.1 ha with h | h
      · subst h
        intro hm
        simp only [String.data_append] at hm
        rcases List.mem_append.1 hm with h' | h'
        · rcases List.mem_append.1 h' with h'' | h''
          · exact label_not_newline sw hjar _ h''
          · exact absurd h'' (by decide)
        · exact hsnf h'
      · exact hatnf a h

theorem handle_simple_dict_flat (sw : SummaryWriter)
    (hjar : ∀ p ∈ sw.jargon, '\n' ∉ p.2.data) (kvs : JEntries) (path : List String)
    (hscal : ∀ kv ∈ kvs.toList, kv.2.isContainer = false)
    (htype : ∀ s, ("type", JSON.str s) ∈ kvs.toList → '\n' ∉ s.data) :
    ∃ g, sw.handle_simple_dict kvs path = .ok (some ("\x7b" ++ g ++ "\x7d\n")) ∧
      '\n' ∉ g.data := by
  have hsimple : JEntries.anyVal JSON.isContainer kvs = false := anyVal_eq_false kvs hscal
  obtain ⟨attrs, hat, hatnf⟩ := inline_attrs_ok_nf sw hjar kvs path hscal htype
  refine ⟨joinSep ", " attrs, ?_, joinSep_not_newline (by decide) hatnf⟩
  simp only [SummaryWriter.handle_simple_dict, hsimple, Bool.not_false, Bool.or_true,
    if_true, hat]

theorem handle_simple_none {sw : SummaryWriter} {kvs : JEntries} {path : List String}
    (h : sw.handle_simple_dict kvs path = .ok none) :
    JEntries.anyVal JSON.isContainer kvs = true := by
  simp only [SummaryWriter.handle_simple_dict] at h
  split at h
  · split at h <;> simp at h
  · rename_i hcond
    cases hav : JEntries.anyVal JSON.isContainer kvs with
    | true => rfl
    | false => exact absurd (by rw [hav]; simp) hcond

theorem anyVal_true_ne_nil {p : JSON → Bool} {kvs : JEntries}
    (h : JEntries.anyVal p kvs = true) : kvs ≠ .nil := by
  intro hn
  subst hn
  simp [JEntries.anyVal] at h

theorem entriesGo_cons_good (sw : SummaryWriter) (k : String) (v : JSON) (tl : JEntries)
    (cpfx ipfx : String) (path : List String) (hk : badKey k = false) {parts : List String}
    (h : sw.entriesGo (.cons k v tl) cpfx ipfx path = .ok parts) :
    ∃ hd parts2, parts = hd :: parts2 ∧ sw.entriesGo tl cpfx ipfx path = .ok parts2 := by
  rw [SummaryWriter.entriesGo, hk] at h
  simp only [Bool.false_eq_true, if_false] at h
  cases v <;> repeat' split at h
  all_goals
    first
    | exact Except.noConfusion h
    | exact ⟨_, _, (Except.ok.inj h).symm, by assumption⟩

theorem entriesGo_length (sw : SummaryWriter) :
    ∀ (kvs : JEntries) (cpfx ipfx : String) (path : List String) (parts : List String),
      sw.entriesGo kvs cpfx ipfx path = .ok parts →
      parts.length = (filter_unecessary kvs).toList.length
  | .nil, _, _, _, parts, h => by
    have := Except.ok.inj h
    subst this
    rfl
  | .cons k v tl, cpfx, ipfx, path, parts, h => by
    cases hk : badKey k with
    | true =>
      rw [SummaryWriter.entriesGo, hk] at h
      simp only [if_true] at h
      have := entriesGo_length sw tl cpfx ipfx path parts h
      simpa [filter_unecessary, hk] using this
    | false =>
      obtain ⟨hd, parts2, rfl, htl⟩ := entriesGo_cons_good sw k v tl cpfx ipfx path hk h
      have := entriesGo_length sw tl cpfx ipfx path parts2 htl
      simp [filter_unecessary, hk, JEntries.toList, this]

theorem call_obj_ok_prefixed (sw : SummaryWriter) (kvs : JEntries) (pfx : String)
    (path : List String) {r : String} (h : sw.call (.obj kvs) pfx path = .ok r) :
    ∃ t, r = pfx ++ t := by
  rw [SummaryWriter.call] at h
  cases hsd : sw.handle_simple_dict (filter_unecessary kvs) path with
  | error e => rw [hsd] at h; exact Except.noConfusion h
  | ok o =>
    cases o with
    | some s =>
      rw [hsd] at h
      exact ⟨s, (Except.ok.inj h).symm⟩
    | none =>
      rw [hsd] at h
      cases hego : sw.entriesGo kvs (child_pfx pfx "  ") (child_pfx pfx "- ") path with
      | error e => rw [hego] at h; exact Except.noConfusion h
      | ok parts =>
        rw [hego] at h
        have hlen := entriesGo_length sw kvs _ _ _ parts hego
        have hfne : filter_unecessary kvs ≠ .nil :=
          anyVal_true_ne_nil (handle_simple_none hsd)
        match parts, hlen with
        | p :: ps, _ =>
          refine ⟨p ++ joinBlockTail (spaces pfx.length) ps, ?_⟩
          rw [← Except.ok.inj h]
          simp [joinBlock, String.append_assoc]
        | [], hlen0 =>
          exfalso
          cases hfil : filter_unecessary kvs with
          | nil => exact hfne hfil
          | cons k' v' tl' =>
            rw [hfil] at hlen0
            simp [JEntries.toList] at hlen0

/-! ### Filtering is idempotent and fused into the entry loop -/

theorem filter_idem : ∀ kvs : JEntries,
    filter_unecessary (filter_unecessary kvs) = filter_unecessary kvs
  | .nil => rfl
  | .cons k v tl => by
    cases hk : badKey k with
    | true => simp [filter_unecessary, hk, filter_idem tl]
    | false => simp [filter_unecessary, hk, filter_idem tl]

theorem entriesGo_filter (sw : SummaryWriter) (cpfx ipfx : String) (path : List String) :
    ∀ kvs : JEntries,
      sw.entriesGo (filter_unecessary kvs) cpfx ipfx path =
        sw.entriesGo kvs cpfx ipfx path
  | .nil => rfl
  | .cons k v tl => by
    have ih := entriesGo_filter sw cpfx ipfx path tl
    cases hk : badKey k with
    | true =>
      calc sw.entriesGo (filter_unecessary (.cons k v tl)) cpfx ipfx path
          = sw.entriesGo (filter_unecessary tl) cpfx ipfx path := by
            rw [filter_unecessary, hk]
            simp
        _ = sw.entriesGo tl cpfx ipfx path := ih
        _ = sw.entriesGo (.cons k v tl) cpfx ipfx path := by
            rw [SummaryWriter.entriesGo, hk]
            simp
    | false =>
      rw [show filter_unecessary (.cons k v tl) = .cons k v (filter_unecessary tl) by
        rw [filter_unecessary, hk]; simp]
      simp only [SummaryWriter.entriesGo]
      rw [ih]

theorem call_filter_invariant (sw : SummaryWriter) (kvs : JEntries) (pfx : String)
    (path : List String) :
    sw.call (.obj kvs) pfx path = sw.call (.obj (filter_unecessary kvs)) pfx path := by
  simp only [SummaryWriter.call]
  rw [filter_idem, entriesGo_filter]

/-! ### Sequence rendering -/

theorem call_arr_inline (sw : SummaryWriter) (xs : JList) (pfx : String)
    (path : List String) (h1 : JList.all (fun e => !e.isContainer) xs = true)
    (h2 : (pyRepr (.arr xs)).length < 60) :
    sw.call (.arr xs) pfx path = .ok (pyRepr (.arr xs) ++ "\n") := by
  rw [SummaryWriter.call, if_pos ⟨h1, h2⟩]

theorem pyRepr_arr_bracket (xs : JList) :
    ∃ rest, pyRepr (.arr xs) = "[" ++ rest := by
  refine ⟨joinSep ", " (pyReprItems xs) ++ "]", ?_⟩
  rw [pyRepr, String.append_assoc]

theorem call_scalar_error (sw : SummaryWriter) (v : JSON) (pfx : String)
    (path : List String) (hv : JSON.isContainer v = false) :
    sw.call v pfx path = .error .attributeError := by
  cases v <;> first | rfl | simp [JSON.isContainer] at hv

/-! ### Concrete inputs used by the claims -/

/-- The TOML jargon table shipped with the module. -/
def TOML_JARGON : List (String × String) :=
  [("object", "table"), ("property", "key"), ("properties", "keys"),
   ("property names", "keys")]

/-- A JSON Schema with a type list: {"type": ["string", "number", "integer",
"boolean", "null", "array", "object"]} (its repr is 69 characters long). -/
def typeListSchema : JSON :=
  .obj (.cons "type"
    (.arr (.cons (.str "string") (.cons (.str "number") (.cons (.str "integer")
      (.cons (.str "boolean") (.cons (.str "null") (.cons (.str "array")
        (.cons (.str "object") .nil)))))))) .nil)

/-- {"not": {"type": "number"}} -/
def notNumberSchema : JSON :=
  .obj (.cons "not" (.obj (.cons "type" (.str "number") .nil)) .nil)

/-- {"type": "object", "properties": {"a": {"type": "string"}}} -/
def blockTypeSchema : JSON :=
  .obj (.cons "type" (.str "object")
    (.cons "properties" (.obj (.cons "a" (.obj (.cons "type" (.str "string") .nil)) .nil)) .nil))

/-- {"type": "object", "minimum": 3} (inline because "minimum" is a
guess-inline keyword). -/
def inlineTypeSchema : JSON :=
  .obj (.cons "type" (.str "object") (.cons "minimum" (.num 3) .nil))

/-- {"enum": [1], "x": {"description": "d"}} -/
def enumLeakSchema : JSON :=
  .obj (.cons "enum" (.arr (.cons (.num 1) .nil))
    (.cons "x" (.obj (.cons "description" (.str "d") .nil)) .nil))

/-- {"enum": [1], "type": ["a"]} (inline group with a container type value). -/
def enumTypeListSchema : JSON :=
  .obj (.cons "enum" (.arr (.cons (.num 1) .nil))
    (.cons "type" (.arr (.cons (.str "a") .nil)) .nil))

/-- A sequence holding one sixty-character string, so that its repr reaches
the inline threshold. -/
def longListSchema : JSON :=
  .arr (.cons (.str "aaaaaaaaaaaaaaaaaaaaaaaaaaaaaaaaaaaaaaaaaaaaaaaaaaaaaaaaaaaa") .nil)

/-- {"type": "string", "pattern": ".*"} -/
def stringPatternSchema : JEntries :=
  .cons "type" (.str "string") (.cons "pattern" (.str ".*") .nil)

/-! ### The claims -/

/-- C1: for a non-empty path, the keyword-vs-property decision counts the
consecutive trailing segments before the final key that equal "properties"
or "patternProperties" (stopping at the first other segment); when the
count is odd the final key renders as its quoted literal form (possibly
wrapped as a regex name), with no keyword-table or jargon lookup; when it
is even the key is looked up in the keyword-phrase table, falling back to
the normalized lowercase words passed through the jargon table. -/
theorem C1_keyword_vs_property (sw : SummaryWriter) (path : List String)
    (h : path ≠ []) :
    (trailingProps path.dropLast.reverse % 2 = 1 →
      sw.label path = pyReprString (path.getLastD "") ∨
      sw.label path = "(regex " ++ pyReprString (path.getLastD "") ++ ")") ∧
    (trailingProps path.dropLast.reverse % 2 = 0 →
      sw.label path =
        (List.lookup (path.getLastD "") sw.terms).getD
          (joinSep " " ((separate_terms (path.getLastD "")).map sw.jargonGet))) := by
  have hne : path.isEmpty = false := by
    cases path with
    | nil => exact absurd rfl h
    | cons a l => rfl
  constructor
  · intro hodd
    have hip : is_property path = true := by
      simp [is_property, hne, hodd]
    simp only [SummaryWriter.label, hip]
    rw [if_neg (by simp)]
    split
    · right; rfl
    · left; rfl
  · intro heven
    have hip : is_property path = false := by
      simp [is_property, hne, heven]
    simp only [SummaryWriter.label, hip]
    rw [if_pos trivial]
    cases hl : List.lookup (path.getLastD "") sw.terms with
    | none => rfl
    | some t =>
      show (if t = ""
        then joinSep " " ((separate_terms (path.getLastD "")).map sw.jargonGet)
        else t) = t
      rw [if_neg (terms_lookup_ne_empty sw hl)]

/-- Witness for C1 at the path ["properties", "name"] (odd count 1) with the
default writer. -/
theorem C1_witness :
    (["properties", "name"] ≠ ([] : List String)) ∧
    ((trailingProps (["properties", "name"] : List String).dropLast.reverse % 2 = 1 →
      (SummaryWriter.mk []).label ["properties", "name"] =
        pyReprString ((["properties", "name"] : List String).getLastD "") ∨
      (SummaryWriter.mk []).label ["properties", "name"] =
        "(regex " ++ pyReprString ((["properties", "name"] : List String).getLastD "") ++ ")") ∧
    (trailingProps (["properties", "name"] : List String).dropLast.reverse % 2 = 0 →
      (SummaryWriter.mk []).label ["properties", "name"] =
        (List.lookup ((["properties", "name"] : List String).getLastD "")
            (SummaryWriter.mk []).terms).getD
          (joinSep " "
            ((separate_terms ((["properties", "name"] : List String).getLastD "")).map
              (SummaryWriter.mk []).jargonGet)))) :=
  ⟨by decide, C1_keyword_vs_property (SummaryWriter.mk []) ["properties", "name"] (by decide)⟩

/-- C2: the claim says the public call renders scalars and never raises on
well-formed trees; the code instead raises AttributeError on any scalar
passed to the call (schema.items() on a non-mapping) — including the
scalar elements that _handle_list feeds back into the call for a
long scalar-only sequence such as a plain JSON Schema type list — and
raises TypeError when an inline group's "type" value is a container
(unhashable jargon lookup).  This theorem evaluates the code at the
failing inputs. -/
theorem C2_crash_eval :
    (SummaryWriter.mk []).call (.str "hello") "" [] = .error .attributeError ∧
    (SummaryWriter.mk []).call typeListSchema "" [] = .error .attributeError ∧
    (SummaryWriter.mk []).call enumTypeListSchema "" [] = .error .typeError :=
  ⟨rfl, rfl, rfl⟩

/-- C3 counterexample: a scalar-only sequence whose repr reaches the
60-character threshold does not render as "- "-prefixed blocks; the
block branch passes each scalar element back to the public call, which
raises AttributeError. -/
theorem C3_counterexample :
    (SummaryWriter.mk []).call longListSchema "" [] = .error .attributeError ∧
    ∀ s : String, (SummaryWriter.mk []).call longListSchema "" [] ≠ .ok s := by
  refine ⟨rfl, ?_⟩
  intro s hs
  rw [show (SummaryWriter.mk []).call longListSchema "" [] = .error .attributeError
    from rfl] at hs
  exact Except.noConfusion hs

/-- C3 amended: a scalar-only sequence whose repr is under 60 characters
renders as a single newline-terminated line starting with "["; a mapping
that renders successfully yields output starting with the caller's
prefix (so each element of a block-rendered sequence, rendered with the
"- " item prefix, starts with its marker); but scalar elements reaching
the block branch raise AttributeError instead of rendering. -/
theorem C3_amended :
    (∀ (sw : SummaryWriter) (xs : JList) (pfx : String) (path : List String),
      JList.all (fun e => !e.isContainer) xs = true →
      (pyRepr (.arr xs)).length < 60 →
      sw.call (.arr xs) pfx path = .ok (pyRepr (.arr xs) ++ "\n") ∧
      (∃ rest, pyRepr (.arr xs) = "[" ++ rest) ∧
      '\n' ∉ (pyRepr (.arr xs)).data) ∧
    (∀ (sw : SummaryWriter) (kvs : JEntries) (pfx : String) (path : List String)
      (r : String), sw.call (.obj kvs) pfx path = .ok r → ∃ t, r = pfx ++ t) ∧
    (∀ (sw : SummaryWriter) (v : JSON) (pfx : String) (path : List String),
      v.isContainer = false → sw.call v pfx path = .error .attributeError) :=
  ⟨fun sw xs pfx path h1 h2 =>
    ⟨call_arr_inline sw xs pfx path h1 h2, pyRepr_arr_bracket xs, pyRepr_not_newline _⟩,
   fun sw kvs pfx path _ h => call_obj_ok_prefixed sw kvs pfx path h,
   fun sw v pfx path hv => call_scalar_error sw v pfx path hv⟩

/-- Witness for C3 at the two-element scalar list [1, 2]. -/
theorem C3_witness :
    (JList.all (fun e => !e.isContainer) (.cons (.num 1) (.cons (.num 2) .nil)) = true) ∧
    ((pyRepr (.arr (.cons (.num 1) (.cons (.num 2) .nil)))).length < 60) ∧
    ((SummaryWriter.mk []).call (.arr (.cons (.num 1) (.cons (.num 2) .nil))) "" [] =
        .ok (pyRepr (.arr (.cons (.num 1) (.cons (.num 2) .nil))) ++ "\n") ∧
      (∃ rest, pyRepr (.arr (.cons (.num 1) (.cons (.num 2) .nil))) = "[" ++ rest) ∧
      '\n' ∉ (pyRepr (.arr (.cons (.num 1) (.cons (.num 2) .nil)))).data) :=
  ⟨by decide, by decide,
    C3_amended.1 (SummaryWriter.mk []) (.cons (.num 1) (.cons (.num 2) .nil)) "" []
      (by decide) (by decide)⟩

/-- C4 counterexample: with jargon table {"object": "table"}, a schema whose
"type" keyword sits in a block-rendered mapping prints 'object' via repr;
"table" appears nowhere in the output, refuting the claim that the jargon
substitution applies in block rendering. -/
theorem C4_counterexample :
    (SummaryWriter.mk [("object", "table")]).call blockTypeSchema "" [] =
      .ok "type: 'object'\nproperties:\n  'a': \x7btype: string\x7d\n" ∧
    ¬ List.IsInfix "table".data
      ("type: 'object'\nproperties:\n  'a': \x7btype: string\x7d\n").data :=
  ⟨rfl, by decide⟩

/-- C4 amended: the jargon substitution for a keyword-position "type" value
is applied only on the inline path (_value); there it always substitutes
string scalars through the table, and without a jargon table the value is
preserved; block rendering bypasses _value and prints the repr. -/
theorem C4_amended :
    (∀ (sw : SummaryWriter) (s : String) (path : List String),
      is_property path = false → path.getLastD "" = "type" →
      sw.value (.str s) path = .ok (sw.jargonGet s)) ∧
    (SummaryWriter.mk [("object", "table")]).call inlineTypeSchema "" [] =
      .ok "\x7btype: table, minimum: 3\x7d\n" ∧
    (SummaryWriter.mk []).call inlineTypeSchema "" [] =
      .ok "\x7btype: object, minimum: 3\x7d\n" := by
  refine ⟨?_, rfl, rfl⟩
  intro sw s path h1 h2
  rw [SummaryWriter.value, if_pos ⟨h1, h2⟩]

/-- Witness for C4 at the one-segment keyword path ["type"]. -/
theorem C4_witness :
    (is_property ["type"] = false) ∧
    ((["type"] : List String).getLastD "" = "type") ∧
    (SummaryWriter.mk []).value (.str "object") ["type"] =
      .ok ((SummaryWriter.mk []).jargonGet "object") :=
  ⟨by decide, rfl, C4_amended.1 (SummaryWriter.mk []) "object" ["type"] (by decide) rfl⟩

/-- C5 counterexample: the mapping {"type": "a\nb"} has only scalar values
after filtering, yet its rendering spans two lines, because a string value
of a keyword-position "type" entry is emitted unescaped. -/
theorem C5_counterexample :
    (SummaryWriter.mk []).call (.obj (.cons "type" (.str "a\nb") .nil)) "" [] =
      .ok "\x7btype: a\nb\x7d\n" ∧
    ("\x7btype: a\nb\x7d\n").data.count '\n' = 2 :=
  ⟨rfl, by decide⟩

/-- C5 amended: a mapping whose filtered entries are all scalar-valued
renders inline as a brace group appended to the caller's prefix,
terminated by one newline and containing no other newline — provided the
jargon replacement values and any string value of a keyword-position
"type" entry are newline-free (such values are emitted unescaped). -/
theorem C5_amended (sw : SummaryWriter) (kvs : JEntries) (pfx : String)
    (path : List String)
    (hjar : ∀ p ∈ sw.jargon, '\n' ∉ p.2.data)
    (hscal : ∀ kv ∈ (filter_unecessary kvs).toList, kv.2.isContainer = false)
    (htype : ∀ s, ("type", JSON.str s) ∈ (filter_unecessary kvs).toList →
      '\n' ∉ s.data) :
    ∃ g, sw.call (.obj kvs) pfx path = .ok (pfx ++ g) ∧
      ∃ body : List Char, g.data = '\x7b' :: body ++ ['\x7d', '\n'] ∧ '\n' ∉ body := by
  obtain ⟨j, hsd, hnf⟩ :=
    handle_simple_dict_flat sw hjar (filter_unecessary kvs) path hscal htype
  refine ⟨"\x7b" ++ j ++ "\x7d\n", ?_, j.data, ?_, hnf⟩
  · rw [SummaryWriter.call, hsd]
  · simp [String.data_append]

/-- Witness for C5 at {"type": "string", "pattern": ".*"} with the default
writer. -/
theorem C5_witness :
    (∀ p ∈ (SummaryWriter.mk []).jargon, '\n' ∉ p.2.data) ∧
    (∀ kv ∈ (filter_unecessary stringPatternSchema).toList,
      kv.2.isContainer = false) ∧
    (∀ s, ("type", JSON.str s) ∈ (filter_unecessary stringPatternSchema).toList →
      '\n' ∉ s.data) ∧
    ∃ g, (SummaryWriter.mk []).call (.obj stringPatternSchema) "" [] = .ok ("" ++ g) ∧
      ∃ body : List Char, g.data = '\x7b' :: body ++ ['\x7d', '\n'] ∧ '\n' ∉ body := by
  have h1 : ∀ p ∈ (SummaryWriter.mk []).jargon, '\n' ∉ p.2.data := by simp
  have h2 : ∀ kv ∈ (filter_unecessary stringPatternSchema).toList,
      kv.2.isContainer = false := by decide
  have h3 : ∀ s, ("type", JSON.str s) ∈ (filter_unecessary stringPatternSchema).toList →
      '\n' ∉ s.data := by
    intro s hs
    simp only [stringPatternSchema, filter_unecessary, badKey, IGNORE_KEYS,
      JEntries.toList] at hs
    simp only [List.mem_cons, List.not_mem_nil, or_false, Prod.mk.injEq] at hs
    rcases hs with ⟨-, hs⟩ | ⟨hs, -⟩
    · cases hs
      decide
    · exact absurd hs (by decide)
  exact ⟨h1, h2, h3, C5_amended (SummaryWriter.mk []) stringPatternSchema "" [] h1 h2 h3⟩

/-- C6 counterexample: on the path ["properties", "addr", "properties",
"street"] the trailing count is 1 (not 2): the walk stops at "addr", the
parity is odd, and the final key renders as the quoted property name
'street' rather than as a keyword. -/
theorem C6_counterexample :
    ¬ trailingProps
        (["properties", "addr", "properties", "street"] : List String).dropLast.reverse = 2 ∧
    trailingProps
      (["properties", "addr", "properties", "street"] : List String).dropLast.reverse = 1 ∧
    is_property ["properties", "addr", "properties", "street"] = true ∧
    (SummaryWriter.mk []).label ["properties", "addr", "properties", "street"] =
      "'street'" :=
  ⟨by decide, rfl, rfl, rfl⟩

/-- C6 amended: for a path of the form [..., "properties", name,
"properties", key] with name itself not a properties keyword, the trailing
count is 1 (odd) and the key is treated as a property name and quoted; the
count only reaches 2 (even, keyword treatment) when a property is
literally named "properties", i.e. on paths ending ["properties",
"properties", key]. -/
theorem C6_amended (sw : SummaryWriter) (name key : String)
    (h1 : name ≠ "properties") (h2 : name ≠ "patternProperties") :
    trailingProps (["properties", name, "properties", key] : List String).dropLast.reverse = 1 ∧
    is_property ["properties", name, "properties", key] = true ∧
    sw.label ["properties", name, "properties", key] = pyReprString key ∧
    ∀ key2 : String,
      trailingProps (["properties", "properties", key2] : List String).dropLast.reverse = 2 ∧
      is_property ["properties", "properties", key2] = false := by
  have hb1 : (name == "properties") = false := beq_eq_false_iff_ne.2 h1
  have hb2 : (name == "patternProperties") = false := beq_eq_false_iff_ne.2 h2
  have hcount0 : trailingProps ["properties", name, "properties"] = 1 := by
    simp [trailingProps, hb1, hb2]
  have hcount :
      trailingProps (["properties", name, "properties", key] : List String).dropLast.reverse = 1 :=
    hcount0
  have hip : is_property ["properties", name, "properties", key] = true := by
    simp [is_property, hcount0]
  refine ⟨hcount, hip, ?_,
    fun key2 => ⟨by simp [trailingProps], by simp [is_property, trailingProps]⟩⟩
  simp only [SummaryWriter.label, hip]
  rw [if_neg (by simp)]
  have hpar : (["properties", name, "properties", key] : List String).dropLast.getLastD "" =
      "properties" := rfl
  rw [hpar, if_neg (by decide : ¬ ("properties" = "patternProperties"))]
  exact rfl

/-- Witness for C6 at name = "addr", key = "street". -/
theorem C6_witness :
    ("addr" ≠ "properties") ∧ ("addr" ≠ "patternProperties") ∧
    (trailingProps
        (["properties", "addr", "properties", "street"] : List String).dropLast.reverse = 1 ∧
      is_property ["properties", "addr", "properties", "street"] = true ∧
      (SummaryWriter.mk []).label ["properties", "addr", "properties", "street"] =
        pyReprString "street" ∧
      ∀ key2 : String,
        trailingProps (["properties", "properties", key2] : List String).dropLast.reverse = 2 ∧
        is_property ["properties", "properties", key2] = false) :=
  ⟨by decide, by decide,
    C6_amended (SummaryWriter.mk []) "addr" "street" (by decide) (by decide)⟩

theorem filter_no_bad : ∀ kvs : JEntries,
    ∀ kv ∈ (filter_unecessary kvs).toList, badKey kv.1 = false
  | .nil => by simp [filter_unecessary, JEntries.toList]
  | .cons k v tl => by
    intro kv hkv
    cases hk : badKey k with
    | true =>
      rw [filter_unecessary, hk] at hkv
      simp only [if_true] at hkv
      exact filter_no_bad tl kv hkv
    | false =>
      rw [filter_unecessary, hk] at hkv
      simp only [Bool.false_eq_true, if_false, JEntries.toList, List.mem_cons] at hkv
      rcases hkv with h | h
      · rw [h]
        exact hk
      · exact filter_no_bad tl kv h

/-- C7 counterexample: an inline attribute group renders a mapping value via
its repr without filtering, so an inner "description" key appears in the
output of {"enum": [1], "x": {"description": "d"}}, refuting "never
appear in the summary output". -/
theorem C7_counterexample :
    (SummaryWriter.mk []).call enumLeakSchema "" [] =
      .ok "\x7benum: [1], x: \x7b'description': 'd'\x7d\x7d\n" ∧
    List.IsInfix "description".data
      ("\x7benum: [1], x: \x7b'description': 'd'\x7d\x7d\n").data :=
  ⟨rfl, by decide⟩

/-- C7 amended: every structurally rendered mapping is filtered before
rendering — rendering a mapping equals rendering its filtered form, and no
surviving entry has an ignored or reserved-prefix key; but mapping values
rendered via repr inside an inline attribute group are not filtered, so
ignored keys can still appear in the output there. -/
theorem C7_amended :
    (∀ (sw : SummaryWriter) (kvs : JEntries) (pfx : String) (path : List String),
      sw.call (.obj kvs) pfx path = sw.call (.obj (filter_unecessary kvs)) pfx path) ∧
    ∀ kvs : JEntries, ∀ kv ∈ (filter_unecessary kvs).toList, badKey kv.1 = false :=
  ⟨fun sw kvs pfx path => call_filter_invariant sw kvs pfx path, filter_no_bad⟩

/-- Witness for C7 at {"description": "d", "x": 1}: the filtered mapping
keeps only the "x" entry, whose key is not filtered. -/
theorem C7_witness :
    (("x", JSON.num 1) ∈
      (filter_unecessary
        (.cons "description" (.str "d") (.cons "x" (.num 1) .nil))).toList) ∧
    badKey ("x", JSON.num 1).1 = false :=
  ⟨List.Mem.head _,
    C7_amended.2 (.cons "description" (.str "d") (.cons "x" (.num 1) .nil))
      ("x", JSON.num 1) (List.Mem.head _)⟩

/-- C8: rendering is a pure function of the schema node, the starting
prefix and path, and the jargon table the writer was constructed with:
writers with equal jargon tables render every input identically, so
repeated calls with identical input yield identical output.  (In the
source, neither the configuration tables built in __init__ nor the shared
mutable default `_path=[]` are ever mutated; the embedding is therefore a
function and carries no other state.) -/
theorem C8_deterministic (sw1 sw2 : SummaryWriter) (h : sw1.jargon = sw2.jargon) :
    ∀ (T : JSON) (pfx : String) (path : List String),
      sw1.call T pfx path = sw2.call T pfx path := by
  cases sw1
  cases sw2
  cases h
  intro T pfx path
  rfl

/-- Witness for C8: two separately written writers with the TOML jargon
table render {"const": 42} identically. -/
theorem C8_witness :
    ((SummaryWriter.mk TOML_JARGON).jargon = (SummaryWriter.mk TOML_JARGON).jargon) ∧
    (SummaryWriter.mk TOML_JARGON).call (.obj (.cons "const" (.num 42) .nil)) "" [] =
      (SummaryWriter.mk TOML_JARGON).call (.obj (.cons "const" (.num 42) .nil)) "" [] :=
  ⟨rfl, C8_deterministic (SummaryWriter.mk TOML_JARGON) (SummaryWriter.mk TOML_JARGON) rfl
    (.obj (.cons "const" (.num 42) .nil)) "" []⟩

/-- C9 counterexample: {"not": {"type": "number"}} renders as a single line
(one newline, at the end) and the text "a number" appears nowhere,
refuting the claimed multi-line block with an indented "a number"
description. -/
theorem C9_counterexample :
    (SummaryWriter.mk []).call notNumberSchema "" [] =
      .ok "(*NOT* the following): \x7btype: number\x7d\n" ∧
    ("(*NOT* the following): \x7btype: number\x7d\n").data.count '\n' = 1 ∧
    ¬ List.IsInfix "a number".data
      ("(*NOT* the following): \x7btype: number\x7d\n").data :=
  ⟨rfl, by decide, by decide⟩

/-- C9 amended: {"not": {"type": "number"}} renders as the single line
consisting of the negation-phrase label, a colon, a space, and the inline
simple-dict rendering of the inner schema. -/
theorem C9_amended :
    (SummaryWriter.mk []).call notNumberSchema "" [] =
      .ok ("(*NOT* the following)" ++ ":" ++ " " ++ "\x7btype: number\x7d\n") := rfl

/-- C10: a key directly under "properties" is at a property-name position
(odd parity), yet entries with ignored or reserved-prefix names are still
silently omitted there: rendering {"properties": P} is unchanged when P is
replaced by its filtered form. -/
theorem C10_property_position_filtering :
    (∀ k : String, is_property ["properties", k] = true) ∧
    ∀ (sw : SummaryWriter) (P : JEntries) (pfx : String),
      sw.call (.obj (.cons "properties" (.obj P) .nil)) pfx [] =
        sw.call (.obj (.cons "properties" (.obj (filter_unecessary P)) .nil)) pfx [] := by
  constructor
  · intro k
    rfl
  · intro sw P pfx
    simp only [SummaryWriter.call]
    rw [show sw.handle_simple_dict
        (filter_unecessary (.cons "properties" (.obj P) .nil)) [] = .ok none from rfl]
    rw [show sw.handle_simple_dict
        (filter_unecessary (.cons "properties" (.obj (filter_unecessary P)) .nil)) [] =
        .ok none from rfl]
    have hego : sw.entriesGo (.cons "properties" (.obj P) .nil)
        (child_pfx pfx "  ") (child_pfx pfx "- ") [] =
        sw.entriesGo (.cons "properties" (.obj (filter_unecessary P)) .nil)
          (child_pfx pfx "  ") (child_pfx pfx "- ") [] := by
      simp only [SummaryWriter.entriesGo]
      rw [show badKey "properties" = false from rfl]
      simp only [Bool.false_eq_true, if_false]
      rw [filter_idem, entriesGo_filter]
    rw [hego]

end Summary
